import Mathlib

set_option maxRecDepth 8000

namespace LiveCode

/-- Membership role, mirroring the role enum of the room schema in
server/index.js (enum: owner, editor, member, viewer, pending). -/
inductive Role where
  | owner
  | editor
  | member
  | viewer
  | pending
deriving DecidableEq, Repr

/-- One entry of room.members: user id, role, addedAt. -/
structure Member where
  user : Nat
  role : Role
  addedAt : Nat
deriving DecidableEq, Repr

/-- One entry of room.files: fileId, name, createdAt. -/
structure RoomFile where
  fileId : Nat
  name : String
  createdAt : Nat
deriving DecidableEq, Repr

/-- The Room aggregate of server/index.js: roomId, password hash (modelled as a
Nat compared for equality, standing for the bcrypt compare), owner id, the
ordered members array and the ordered files array. -/
structure Room where
  roomId : Nat
  password : Nat
  owner : Nat
  members : List Member
  files : List RoomFile
deriving DecidableEq, Repr

/-- A delivered notification: either emitToUser(userId, name) or
io.to(roomId).emit(name). -/
inductive Event where
  | toUser (userId : Nat) (name : String)
  | toRoom (roomId : Nat) (name : String)
deriving DecidableEq, Repr

/-- Outcome of a handler: res.json on success, res.status(s).json on failure. -/
inductive HOut (α : Type) where
  | ok (val : α)
  | err (status : Nat) (msg : String)
deriving DecidableEq, Repr

/-- Array.prototype.find over members by user id: first match. -/
def findFirstMember : List Member → Nat → Option Member
  | [], _ => none
  | m :: ms, u => if m.user = u then some m else findFirstMember ms u

/-- Role assignment through the object reference that find returned: only
the first entry with the given user id changes. -/
def setRoleFirst : List Member → Nat → Role → List Member
  | [], _, _ => []
  | m :: ms, u, r => if m.user = u then { m with role := r } :: ms else m :: setRoleFirst ms u r

/-- splice(idx, 1) at the index findIndex returned: first match removed. -/
def removeMemberFirst : List Member → Nat → List Member
  | [], _ => []
  | m :: ms, u => if m.user = u then ms else m :: removeMemberFirst ms u

/-- Array.prototype.find over files by fileId: first match. -/
def findFirstFile : List RoomFile → Nat → Option RoomFile
  | [], _ => none
  | f :: fs, fid => if f.fileId = fid then some f else findFirstFile fs fid

/-- splice(idx, 1) on files at the index findIndex returned. -/
def removeFileFirst : List RoomFile → Nat → List RoomFile
  | [], _ => []
  | f :: fs, fid => if f.fileId = fid then fs else f :: removeFileFirst fs fid

/-- POST /api/rooms: Room.create with an initial members array holding the
creator with role owner, and owner set to the creator. -/
def createRoomH (creator roomId pass now : Nat) : Room :=
  { roomId := roomId
    password := pass
    owner := creator
    members := [{ user := creator, role := Role.owner, addedAt := now }]
    files := [] }

/-- POST /api/rooms/join: password check, then the already-member branch,
then the isOwnerJoining branch, then the pending push. -/
def joinRoomH (room : Room) (u pass now : Nat) : HOut Role × Room × List Event :=
  if pass ≠ room.password then
    (HOut.err 401 "invalid room password", room, [])
  else
    match findFirstMember room.members u with
    | some m => (HOut.ok m.role, room, [])
    | none =>
      if room.owner = u then
        (HOut.ok Role.owner,
         { room with members := room.members ++ [{ user := u, role := Role.owner, addedAt := now }] },
         [Event.toRoom room.roomId "members_updated"])
      else
        (HOut.ok Role.pending,
         { room with members := room.members ++ [{ user := u, role := Role.pending, addedAt := now }] },
         [Event.toUser room.owner "members_updated"])

/-- POST /api/rooms/:roomId/members/:memberId/approve. -/
def approveH (room : Room) (req target : Nat) : HOut Unit × Room × List Event :=
  if room.owner ≠ req then (HOut.err 403 "only owner can approve", room, [])
  else
    match findFirstMember room.members target with
    | none => (HOut.err 404 "member not found", room, [])
    | some e =>
      if e.role ≠ Role.pending then (HOut.err 400 "member is not pending", room, [])
      else
        (HOut.ok (),
         { room with members := setRoleFirst room.members target Role.member },
         [Event.toUser target "approved", Event.toRoom room.roomId "members_updated"])

/-- POST /api/rooms/:roomId/members/:memberId/reject. -/
def rejectH (room : Room) (req target : Nat) : HOut Unit × Room × List Event :=
  if room.owner ≠ req then (HOut.err 403 "only owner can reject", room, [])
  else
    match findFirstMember room.members target with
    | none => (HOut.err 404 "member not found", room, [])
    | some e =>
      if e.role ≠ Role.pending then (HOut.err 400 "member is not pending", room, [])
      else
        (HOut.ok (),
         { room with members := removeMemberFirst room.members target },
         [Event.toUser target "rejected", Event.toRoom room.roomId "members_updated"])

/-- POST /api/rooms/:roomId/members/:memberId/kick. -/
def kickH (room : Room) (req target : Nat) : HOut Unit × Room × List Event :=
  if room.owner ≠ req then (HOut.err 403 "only owner can kick", room, [])
  else
    match findFirstMember room.members target with
    | none => (HOut.err 404 "member not found", room, [])
    | some e =>
      if e.role = Role.owner then (HOut.err 400 "cannot kick owner", room, [])
      else
        (HOut.ok (),
         { room with members := removeMemberFirst room.members target },
         [Event.toUser target "kicked", Event.toRoom room.roomId "members_updated"])

/-- The role whitelist check of the role endpoint:
includes over the array of the four assignable role strings. -/
def parseRole (s : String) : Option Role :=
  if s = "owner" then some Role.owner
  else if s = "editor" then some Role.editor
  else if s = "member" then some Role.member
  else if s = "viewer" then some Role.viewer
  else none

/-- The map callback of the owner-swap branch: every entry whose user equals
the requester is replaced by a fresh object with role member. -/
def demoteFun (req : Nat) (m : Member) : Member :=
  if m.user = req then { user := m.user, role := Role.member, addedAt := m.addedAt } else m

/-- POST /api/rooms/:roomId/members/:memberId/role. In the owner branch the
demotion map replaces the requester entries by fresh objects; the later write
memberEntry.role = owner therefore reaches the stored array only when the
target entry was not one of the replaced objects, i.e. when target differs
from the requester. -/
def changeRoleH (room : Room) (req target : Nat) (roleStr : String) :
    HOut Role × Room × List Event :=
  match parseRole roleStr with
  | none => (HOut.err 400 "invalid role", room, [])
  | some r =>
    if room.owner ≠ req then (HOut.err 403 "only owner can change roles", room, [])
    else
      match findFirstMember room.members target with
      | none => (HOut.err 404 "member not found", room, [])
      | some e =>
        if r = Role.owner then
          let demoted := room.members.map (demoteFun req)
          let promoted := if target = req then demoted else setRoleFirst demoted target Role.owner
          (HOut.ok Role.owner,
           { room with owner := e.user, members := promoted },
           [Event.toRoom room.roomId "members_updated"])
        else
          (HOut.ok r,
           { room with members := setRoleFirst room.members target r },
           [Event.toRoom room.roomId "members_updated"])

/-- DELETE /api/rooms/:roomId/files/:fileId. -/
def deleteFileH (room : Room) (req fid : Nat) : HOut Unit × Room × List Event :=
  match findFirstMember room.members req with
  | none => (HOut.err 403 "not allowed", room, [])
  | some e =>
    if e.role ≠ Role.owner ∧ e.role ≠ Role.editor then
      (HOut.err 403 "not allowed", room, [])
    else
      match findFirstFile room.files fid with
      | none => (HOut.ok (), room, [Event.toRoom room.roomId "files_updated"])
      | some _ =>
        (HOut.ok (),
         { room with files := removeFileFirst room.files fid },
         [Event.toRoom room.roomId "files_updated"])

/-- User ids of the members entries whose role is owner, in order. -/
def ownerUsers : List Member → List Nat
  | [] => []
  | m :: ms => if m.role = Role.owner then m.user :: ownerUsers ms else ownerUsers ms

/-- The single-owner invariant: exactly one members entry has role owner and
its user id equals the owner field of the room. -/
def roomInv (room : Room) : Prop :=
  ownerUsers room.members = [room.owner]

instance (room : Room) : Decidable (roomInv room) :=
  inferInstanceAs (Decidable (ownerUsers room.members = [room.owner]))

/-- One membership transition request against a room. -/
inductive Act where
  | join (u pass now : Nat)
  | approve (req target : Nat)
  | reject (req target : Nat)
  | kick (req target : Nat)
  | changeRole (req target : Nat) (roleStr : String)
deriving DecidableEq, Repr

/-- The room state a handler leaves behind (error paths leave it unchanged). -/
def applyAct (room : Room) : Act → Room
  | Act.join u pass now => (joinRoomH room u pass now).2.1
  | Act.approve req t => (approveH room req t).2.1
  | Act.reject req t => (rejectH room req t).2.1
  | Act.kick req t => (kickH room req t).2.1
  | Act.changeRole req t s => (changeRoleH room req t s).2.1

/-- A transition is invariant-safe when it is not a role change aimed at the
current owner identity. -/
def safeForInv (room : Room) : Act → Prop
  | Act.changeRole _ t _ => t ≠ room.owner
  | _ => True

instance (room : Room) : (a : Act) → Decidable (safeForInv room a)
  | Act.join _ _ _ => Decidable.isTrue trivial
  | Act.approve _ _ => Decidable.isTrue trivial
  | Act.reject _ _ => Decidable.isTrue trivial
  | Act.kick _ _ => Decidable.isTrue trivial
  | Act.changeRole _ t _ => inferInstanceAs (Decidable (t ≠ room.owner))

/-- Every step of the sequence is invariant-safe in the state it runs in. -/
def safeActs : Room → List Act → Prop
  | _, [] => True
  | room, a :: as => safeForInv room a ∧ safeActs (applyAct room a) as

def safeActsDec : (room : Room) → (as : List Act) → Decidable (safeActs room as)
  | _, [] => Decidable.isTrue trivial
  | room, a :: as =>
    @instDecidableAnd (safeForInv room a) (safeActs (applyAct room a) as) _
      (safeActsDec (applyAct room a) as)

instance (room : Room) (as : List Act) : Decidable (safeActs room as) := safeActsDec room as

/-- One record of the client mirror under the files key. -/
structure MirrorFile where
  name : String
  createdAt : Nat
  allowed : List Nat
deriving DecidableEq, Repr

/-- One file record as served by GET files, with the optional allowed set
defaulting to empty. -/
structure ServerFile where
  fileId : Nat
  name : String
  createdAt : Nat
  allowed : List Nat
deriving DecidableEq, Repr

/-- Key lookup in the mirror files object. -/
def mirrorGet : List (Nat × MirrorFile) → Nat → Option MirrorFile
  | [], _ => none
  | p :: ps, fid => if p.1 = fid then some p.2 else mirrorGet ps fid

/-- Key assignment in the mirror files object: overwrite or append. -/
def mirrorSet : List (Nat × MirrorFile) → Nat → MirrorFile → List (Nat × MirrorFile)
  | [], fid, v => [(fid, v)]
  | p :: ps, fid, v => if p.1 = fid then (fid, v) :: ps else p :: mirrorSet ps fid v

/-- The allowed set currently stored in the mirror for a fileId, empty when
the record is absent. -/
def mirrorAllowed (cur : List (Nat × MirrorFile)) (fid : Nat) : List Nat :=
  match mirrorGet cur fid with
  | none => []
  | some ex => ex.allowed

/-- The body of the forEach in mergeServerFilesIntoY: rewrite the record when
absent, renamed, or with a differing allowed set; the rewritten allowed set
prefers the server set when non-empty and otherwise keeps the mirror set. -/
def mergeOneFile (cur : List (Nat × MirrorFile)) (f : ServerFile) : List (Nat × MirrorFile) :=
  match mirrorGet cur f.fileId with
  | none =>
    mirrorSet cur f.fileId { name := f.name, createdAt := f.createdAt, allowed := f.allowed }
  | some ex =>
    if ex.name ≠ f.name ∨ ex.allowed ≠ f.allowed then
      mirrorSet cur f.fileId
        { name := f.name
          createdAt := f.createdAt
          allowed := if f.allowed = [] then ex.allowed else f.allowed }
    else cur

/-- mergeServerFilesIntoY of LiveCodeApp.jsx: fold the server file list over
the mirror files object. -/
def mergeServerFilesIntoY (cur : List (Nat × MirrorFile)) (serverFiles : List ServerFile) :
    List (Nat × MirrorFile) :=
  serverFiles.foldl mergeOneFile cur

/-- Fixture: a room whose creator 0 owns it and user 2 is pending. -/
def roomPend : Room :=
  { roomId := 1
    password := 99
    owner := 0
    members := [{ user := 0, role := Role.owner, addedAt := 5 },
                { user := 2, role := Role.pending, addedAt := 6 }]
    files := [] }

/-- Fixture: a room whose creator 0 owns it and user 3 is an editor. -/
def roomEd : Room :=
  { roomId := 1
    password := 99
    owner := 0
    members := [{ user := 0, role := Role.owner, addedAt := 5 },
                { user := 3, role := Role.editor, addedAt := 6 }]
    files := [] }

/-- Fixture: a room whose creator 0 owns it and user 2 is a member. -/
def roomMem : Room :=
  { roomId := 1
    password := 99
    owner := 0
    members := [{ user := 0, role := Role.owner, addedAt := 5 },
                { user := 2, role := Role.member, addedAt := 6 }]
    files := [] }

/-- Fixture: a room holding only its creator 0 and no files. -/
def roomSolo : Room :=
  { roomId := 1
    password := 99
    owner := 0
    members := [{ user := 0, role := Role.owner, addedAt := 5 }]
    files := [] }

/-- Fixture: a room whose owner field is set to 0 while the members array is
empty, the state the isOwnerJoining branch of join targets. -/
def roomNoEntry : Room :=
  { roomId := 1
    password := 99
    owner := 0
    members := []
    files := [] }

/-- A successful first-match lookup yields an entry of the list with the
looked-up user id. -/
theorem findFirstMember_eq_some {l : List Member} {u : Nat} {e : Member}
    (h : findFirstMember l u = some e) : e.user = u ∧ e ∈ l := by
  induction l with
  | nil => simp [findFirstMember] at h
  | cons m ms ih =>
    by_cases hm : m.user = u
    · simp [findFirstMember, hm] at h
      subst h
      exact ⟨hm, List.mem_cons_self _ _⟩
    · simp [findFirstMember, hm] at h
      rcases ih h with ⟨h1, h2⟩
      exact ⟨h1, List.mem_cons_of_mem _ h2⟩

/-- If some entry carries the user id, the first-match lookup succeeds. -/
theorem findFirstMember_isSome_of_mem {l : List Member} {u : Nat}
    (h : ∃ e ∈ l, e.user = u) : ∃ e2, findFirstMember l u = some e2 := by
  induction l with
  | nil => simp at h
  | cons m ms ih =>
    by_cases hm : m.user = u
    · exact ⟨m, by simp [findFirstMember, hm]⟩
    · rcases h with ⟨e, he, hu⟩
      rcases List.mem_cons.mp he with rfl | hms
      · exact absurd hu hm
      · rcases ih ⟨e, hms, hu⟩ with ⟨e2, h2⟩
        exact ⟨e2, by simp [findFirstMember, hm, h2]⟩

/-- ownerUsers distributes over append. -/
theorem ownerUsers_append (l1 l2 : List Member) :
    ownerUsers (l1 ++ l2) = ownerUsers l1 ++ ownerUsers l2 := by
  induction l1 with
  | nil => simp [ownerUsers]
  | cons m ms ih =>
    by_cases hm : m.role = Role.owner
    · simp [ownerUsers, hm, ih]
    · simp [ownerUsers, hm, ih]

/-- An entry with role owner contributes its user id to ownerUsers. -/
theorem mem_ownerUsers {l : List Member} {e : Member}
    (he : e ∈ l) (hr : e.role = Role.owner) : e.user ∈ ownerUsers l := by
  induction l with
  | nil => simp at he
  | cons m ms ih =>
    rcases List.mem_cons.mp he with rfl | hms
    · simp [ownerUsers, hr]
    · by_cases hm : m.role = Role.owner
      · simp only [ownerUsers, if_pos hm, List.mem_cons]
        exact Or.inr (ih hms)
      · simpa [ownerUsers, hm] using ih hms

/-- A singleton ownerUsers list is witnessed by an owner-role entry. -/
theorem ownerUsers_singleton_exists {l : List Member} {u : Nat}
    (h : ownerUsers l = [u]) : ∃ e ∈ l, e.user = u ∧ e.role = Role.owner := by
  induction l with
  | nil => simp [ownerUsers] at h
  | cons m ms ih =>
    by_cases hm : m.role = Role.owner
    · simp only [ownerUsers, if_pos hm, List.cons.injEq] at h
      exact ⟨m, List.mem_cons_self _ _, h.1, hm⟩
    · simp only [ownerUsers, if_neg hm] at h
      rcases ih h with ⟨e, he, h1, h2⟩
      exact ⟨e, List.mem_cons_of_mem _ he, h1, h2⟩

/-- Under a singleton ownerUsers list, every owner-role entry carries the
listed user id. -/
theorem eq_owner_of_role_owner {l : List Member} {u : Nat} {e : Member}
    (hinv : ownerUsers l = [u]) (he : e ∈ l) (hr : e.role = Role.owner) :
    e.user = u := by
  have h2 := mem_ownerUsers he hr
  rw [hinv] at h2
  simpa using h2

/-- Setting a non-owner role on a first match whose role is not owner leaves
ownerUsers unchanged. -/
theorem setRoleFirst_ownerUsers_ne {l : List Member} {t : Nat} {r : Role}
    (hr : r ≠ Role.owner)
    (hfind : ∀ e, findFirstMember l t = some e → e.role ≠ Role.owner) :
    ownerUsers (setRoleFirst l t r) = ownerUsers l := by
  induction l with
  | nil => rfl
  | cons m ms ih =>
    by_cases hm : m.user = t
    · have hmrole : m.role ≠ Role.owner := hfind m (by simp [findFirstMember, hm])
      simp [setRoleFirst, hm, ownerUsers, hr, hmrole]
    · have hfind2 : ∀ e, findFirstMember ms t = some e → e.role ≠ Role.owner := by
        intro e he
        exact hfind e (by simp [findFirstMember, hm, he])
      by_cases hmr : m.role = Role.owner
      · simp [setRoleFirst, hm, ownerUsers, hmr, ih hfind2]
      · simp [setRoleFirst, hm, ownerUsers, hmr, ih hfind2]

/-- Removing a first match whose role is not owner leaves ownerUsers
unchanged. -/
theorem removeMemberFirst_ownerUsers {l : List Member} {t : Nat}
    (hfind : ∀ e, findFirstMember l t = some e → e.role ≠ Role.owner) :
    ownerUsers (removeMemberFirst l t) = ownerUsers l := by
  induction l with
  | nil => rfl
  | cons m ms ih =>
    by_cases hm : m.user = t
    · have hmrole : m.role ≠ Role.owner := hfind m (by simp [findFirstMember, hm])
      simp [removeMemberFirst, hm, ownerUsers, hmrole]
    · have hfind2 : ∀ e, findFirstMember ms t = some e → e.role ≠ Role.owner := by
        intro e he
        exact hfind e (by simp [findFirstMember, hm, he])
      by_cases hmr : m.role = Role.owner
      · simp [removeMemberFirst, hm, ownerUsers, hmr, ih hfind2]
      · simp [removeMemberFirst, hm, ownerUsers, hmr, ih hfind2]

/-- The demotion map preserves the user id of every entry. -/
theorem demoteFun_user (req : Nat) (m : Member) : (demoteFun req m).user = m.user := by
  unfold demoteFun
  split <;> rfl

/-- When every owner-role entry belongs to the requester, the demotion map
leaves no owner-role entries at all. -/
theorem demote_ownerUsers_nil {l : List Member} {req : Nat}
    (h : ∀ e ∈ l, e.role = Role.owner → e.user = req) :
    ownerUsers (l.map (demoteFun req)) = [] := by
  induction l with
  | nil => rfl
  | cons m ms ih =>
    have ih2 := ih (fun e he hr => h e (List.mem_cons_of_mem _ he) hr)
    by_cases hm : m.user = req
    · simp [demoteFun, hm, ownerUsers, ih2]
    · have hmr : m.role ≠ Role.owner := fun hr => hm (h m (List.mem_cons_self _ _) hr)
      simp [demoteFun, hm, ownerUsers, hmr, ih2]

/-- Promoting a found first match to owner in a list without owner-role
entries makes ownerUsers the singleton of the target id. -/
theorem setRoleFirst_owner_ownerUsers {l : List Member} {t : Nat} {e : Member}
    (h0 : ownerUsers l = []) (hfind : findFirstMember l t = some e) :
    ownerUsers (setRoleFirst l t Role.owner) = [t] := by
  induction l with
  | nil => simp [findFirstMember] at hfind
  | cons m ms ih =>
    have hmr : m.role ≠ Role.owner := by
      intro hr
      simp [ownerUsers, hr] at h0
    have h0ms : ownerUsers ms = [] := by simpa [ownerUsers, hmr] using h0
    by_cases hm : m.user = t
    · simp [setRoleFirst, hm, ownerUsers, h0ms]
    · have hfms : findFirstMember ms t = some e := by
        simpa [findFirstMember, hm] using hfind
      simp [setRoleFirst, hm, ownerUsers, hmr, ih h0ms hfms]

/-- First-match lookup commutes with a map that preserves user ids. -/
theorem findFirstMember_map {l : List Member} {u : Nat} {f : Member → Member}
    (hf : ∀ m, (f m).user = m.user) :
    findFirstMember (l.map f) u = (findFirstMember l u).map f := by
  induction l with
  | nil => rfl
  | cons m ms ih =>
    by_cases hm : m.user = u
    · simp [findFirstMember, hf, hm]
    · simp [findFirstMember, hf, hm, ih]

/-- Looking up the set user id after setRoleFirst yields the old first match
with the new role. -/
theorem findFirstMember_setRoleFirst_self {l : List Member} {t : Nat} {r : Role} :
    findFirstMember (setRoleFirst l t r) t =
      (findFirstMember l t).map (fun m => { m with role := r }) := by
  induction l with
  | nil => rfl
  | cons m ms ih =>
    by_cases hm : m.user = t
    · simp [setRoleFirst, hm, findFirstMember]
    · simp [setRoleFirst, hm, findFirstMember, ih]

/-- Looking up a different user id is unaffected by setRoleFirst. -/
theorem findFirstMember_setRoleFirst_ne {l : List Member} {t u : Nat} {r : Role}
    (hu : u ≠ t) :
    findFirstMember (setRoleFirst l t r) u = findFirstMember l u := by
  have htu : t ≠ u := fun h => hu h.symm
  induction l with
  | nil => rfl
  | cons m ms ih =>
    by_cases hm : m.user = t
    · have hmu : m.user ≠ u := by
        rw [hm]
        exact htu
      simp [setRoleFirst, hm, findFirstMember, hmu, htu]
    · by_cases hmu : m.user = u
      · simp [setRoleFirst, hm, findFirstMember, hmu, hu]
      · simp [setRoleFirst, hm, findFirstMember, hmu, ih]

/-- When no file of the list carries the id, the first-match lookup fails. -/
theorem findFirstFile_eq_none {l : List RoomFile} {fid : Nat}
    (h : ∀ f ∈ l, f.fileId ≠ fid) : findFirstFile l fid = none := by
  induction l with
  | nil => rfl
  | cons f fs ih =>
    have h1 : f.fileId ≠ fid := h f (List.mem_cons_self _ _)
    simp only [findFirstFile, if_neg h1]
    exact ih (fun g hg => h g (List.mem_cons_of_mem _ hg))

/-- Under distinct file ids, removing the first match removes every match. -/
theorem removeFileFirst_find_none {l : List RoomFile} {fid : Nat}
    (hnd : (l.map RoomFile.fileId).Nodup) :
    findFirstFile (removeFileFirst l fid) fid = none := by
  induction l with
  | nil => rfl
  | cons f fs ih =>
    rw [List.map_cons, List.nodup_cons] at hnd
    by_cases hf : f.fileId = fid
    · have h2 : ∀ g ∈ fs, g.fileId ≠ fid := by
        intro g hg hgf
        apply hnd.1
        rw [hf, ← hgf]
        exact List.mem_map_of_mem _ hg
      simp only [removeFileFirst, if_pos hf]
      exact findFirstFile_eq_none h2
    · simp only [removeFileFirst, if_neg hf, findFirstFile]
      exact ih hnd.2

/-- A failed first-match lookup makes removal a no-op. -/
theorem removeFileFirst_of_none {l : List RoomFile} {fid : Nat}
    (h : findFirstFile l fid = none) : removeFileFirst l fid = l := by
  induction l with
  | nil => rfl
  | cons f fs ih =>
    by_cases hf : f.fileId = fid
    · simp [findFirstFile, hf] at h
    · simp only [findFirstFile, if_neg hf] at h
      simp [removeFileFirst, hf, ih h]

/-- Key assignment stores the assigned value at the assigned key. -/
theorem mirrorGet_mirrorSet_self (cur : List (Nat × MirrorFile)) (fid : Nat) (v : MirrorFile) :
    mirrorGet (mirrorSet cur fid v) fid = some v := by
  induction cur with
  | nil => simp [mirrorSet, mirrorGet]
  | cons p ps ih =>
    by_cases hp : p.1 = fid
    · simp [mirrorSet, hp, mirrorGet]
    · simp [mirrorSet, hp, mirrorGet, ih]

/-- Key assignment leaves every other key unchanged. -/
theorem mirrorGet_mirrorSet_ne (cur : List (Nat × MirrorFile)) {fid fid2 : Nat} (v : MirrorFile)
    (h : fid2 ≠ fid) :
    mirrorGet (mirrorSet cur fid2 v) fid = mirrorGet cur fid := by
  induction cur with
  | nil => simp [mirrorSet, mirrorGet, h]
  | cons p ps ih =>
    by_cases hp : p.1 = fid2
    · have hpf : p.1 ≠ fid := by
        rw [hp]
        exact h
      simp [mirrorSet, hp, mirrorGet, h, hpf]
    · simp [mirrorSet, hp, mirrorGet, ih]

/-- Merging one server file leaves every other mirror key unchanged. -/
theorem mergeOneFile_get_ne (cur : List (Nat × MirrorFile)) {g : ServerFile} {fid : Nat}
    (h : g.fileId ≠ fid) :
    mirrorGet (mergeOneFile cur g) fid = mirrorGet cur fid := by
  unfold mergeOneFile
  split
  · exact mirrorGet_mirrorSet_ne cur _ h
  · split
    · exact mirrorGet_mirrorSet_ne cur _ h
    · rfl

/-- Folding server files that all carry other ids leaves a mirror key
unchanged. -/
theorem mergeFold_get_ne {fs : List ServerFile} {fid : Nat}
    (cur : List (Nat × MirrorFile))
    (h : ∀ g ∈ fs, g.fileId ≠ fid) :
    mirrorGet (fs.foldl mergeOneFile cur) fid = mirrorGet cur fid := by
  induction fs generalizing cur with
  | nil => rfl
  | cons g gs ih =>
    rw [List.foldl_cons, ih (mergeOneFile cur g) (fun x hx => h x (List.mem_cons_of_mem _ hx))]
    exact mergeOneFile_get_ne cur (h g (List.mem_cons_self _ _))

/-- Merging one server file stores its name at its key and keeps the mirror
allowed set exactly when the server allowed set is empty. -/
theorem mergeOneFile_get_self (cur : List (Nat × MirrorFile)) (f : ServerFile) :
    ∃ v, mirrorGet (mergeOneFile cur f) f.fileId = some v ∧
      v.name = f.name ∧
      v.allowed = (if f.allowed = [] then mirrorAllowed cur f.fileId else f.allowed) := by
  cases hg : mirrorGet cur f.fileId with
  | none =>
    have hall : mirrorAllowed cur f.fileId = [] := by
      unfold mirrorAllowed
      rw [hg]
    have hm : mergeOneFile cur f =
        mirrorSet cur f.fileId { name := f.name, createdAt := f.createdAt, allowed := f.allowed } := by
      unfold mergeOneFile
      rw [hg]
    rw [hm, hall]
    refine ⟨_, mirrorGet_mirrorSet_self cur f.fileId _, rfl, ?_⟩
    by_cases ha : f.allowed = [] <;> simp [ha]
  | some ex =>
    have hall : mirrorAllowed cur f.fileId = ex.allowed := by
      unfold mirrorAllowed
      rw [hg]
    by_cases hc : ex.name ≠ f.name ∨ ex.allowed ≠ f.allowed
    · have hm : mergeOneFile cur f = mirrorSet cur f.fileId
          { name := f.name
            createdAt := f.createdAt
            allowed := if f.allowed = [] then ex.allowed else f.allowed } := by
        unfold mergeOneFile
        rw [hg]
        simp only []
        rw [if_pos hc]
      rw [hm, hall]
      exact ⟨_, mirrorGet_mirrorSet_self cur f.fileId _, rfl, rfl⟩
    · have hm : mergeOneFile cur f = cur := by
        unfold mergeOneFile
        rw [hg]
        simp only []
        rw [if_neg hc]
      push_neg at hc
      rw [hm, hall]
      refine ⟨ex, hg, hc.1, ?_⟩
      by_cases ha : f.allowed = []
      · rw [if_pos ha]
      · rw [if_neg ha]
        exact hc.2

/-- One membership transition preserves the single-owner invariant, provided
it is not a role change aimed at the current owner identity. -/
theorem inv_step (room : Room) (a : Act) (hinv : roomInv room) (hsafe : safeForInv room a) :
    roomInv (applyAct room a) := by
  cases a with
  | join u pass now =>
    simp only [applyAct]
    unfold joinRoomH
    by_cases hp : pass ≠ room.password
    · rw [if_pos hp]
      exact hinv
    · rw [if_neg hp]
      cases hfm : findFirstMember room.members u with
      | some m => exact hinv
      | none =>
        simp only []
        by_cases ho : room.owner = u
        · exfalso
          rcases ownerUsers_singleton_exists hinv with ⟨e, he, hu, hr⟩
          rcases findFirstMember_isSome_of_mem ⟨e, he, by rw [hu, ho]⟩ with ⟨e2, h2⟩
          rw [hfm] at h2
          cases h2
        · rw [if_neg ho]
          show ownerUsers (room.members ++ [{ user := u, role := Role.pending, addedAt := now }])
            = [room.owner]
          rw [ownerUsers_append]
          simpa [ownerUsers] using hinv
  | approve req t =>
    simp only [applyAct]
    unfold approveH
    by_cases hq : room.owner ≠ req
    · rw [if_pos hq]
      exact hinv
    · rw [if_neg hq]
      cases hfm : findFirstMember room.members t with
      | none => exact hinv
      | some e =>
        simp only []
        by_cases hpend : e.role ≠ Role.pending
        · rw [if_pos hpend]
          exact hinv
        · rw [if_neg hpend]
          push_neg at hpend
          have hfe : ∀ e2, findFirstMember room.members t = some e2 → e2.role ≠ Role.owner := by
            intro e2 h2
            rw [hfm, Option.some.injEq] at h2
            rw [← h2, hpend]
            decide
          show ownerUsers (setRoleFirst room.members t Role.member) = [room.owner]
          rw [setRoleFirst_ownerUsers_ne (by decide) hfe]
          exact hinv
  | reject req t =>
    simp only [applyAct]
    unfold rejectH
    by_cases hq : room.owner ≠ req
    · rw [if_pos hq]
      exact hinv
    · rw [if_neg hq]
      cases hfm : findFirstMember room.members t with
      | none => exact hinv
      | some e =>
        simp only []
        by_cases hpend : e.role ≠ Role.pending
        · rw [if_pos hpend]
          exact hinv
        · rw [if_neg hpend]
          push_neg at hpend
          have hfe : ∀ e2, findFirstMember room.members t = some e2 → e2.role ≠ Role.owner := by
            intro e2 h2
            rw [hfm, Option.some.injEq] at h2
            rw [← h2, hpend]
            decide
          show ownerUsers (removeMemberFirst room.members t) = [room.owner]
          rw [removeMemberFirst_ownerUsers hfe]
          exact hinv
  | kick req t =>
    simp only [applyAct]
    unfold kickH
    by_cases hq : room.owner ≠ req
    · rw [if_pos hq]
      exact hinv
    · rw [if_neg hq]
      cases hfm : findFirstMember room.members t with
      | none => exact hinv
      | some e =>
        simp only []
        by_cases hro : e.role = Role.owner
        · rw [if_pos hro]
          exact hinv
        · rw [if_neg hro]
          have hfe : ∀ e2, findFirstMember room.members t = some e2 → e2.role ≠ Role.owner := by
            intro e2 h2
            rw [hfm, Option.some.injEq] at h2
            rw [← h2]
            exact hro
          show ownerUsers (removeMemberFirst room.members t) = [room.owner]
          rw [removeMemberFirst_ownerUsers hfe]
          exact hinv
  | changeRole req t s =>
    have hsafe2 : t ≠ room.owner := hsafe
    simp only [applyAct]
    unfold changeRoleH
    cases hps : parseRole s with
    | none => exact hinv
    | some r =>
      simp only []
      by_cases hq : room.owner ≠ req
      · rw [if_pos hq]
        exact hinv
      · rw [if_neg hq]
        push_neg at hq
        cases hfm : findFirstMember room.members t with
        | none => exact hinv
        | some e =>
          simp only []
          by_cases hro : r = Role.owner
          · rw [if_pos hro]
            have htr : t ≠ req := by
              rw [← hq]
              exact hsafe2
            have hdem : ownerUsers (room.members.map (demoteFun req)) = [] := by
              apply demote_ownerUsers_nil
              intro e2 he2 hr2
              rw [← hq]
              exact eq_owner_of_role_owner hinv he2 hr2
            have hfd : findFirstMember (room.members.map (demoteFun req)) t
                = some (demoteFun req e) := by
              rw [findFirstMember_map (demoteFun_user req), hfm]
              rfl
            have hpro : ownerUsers
                (setRoleFirst (room.members.map (demoteFun req)) t Role.owner) = [t] :=
              setRoleFirst_owner_ownerUsers hdem hfd
            have heu : e.user = t := (findFirstMember_eq_some hfm).1
            show ownerUsers (if t = req then room.members.map (demoteFun req)
                else setRoleFirst (room.members.map (demoteFun req)) t Role.owner) = [e.user]
            rw [if_neg htr, hpro, heu]
          · rw [if_neg hro]
            have hfe : ∀ e2, findFirstMember room.members t = some e2 → e2.role ≠ Role.owner := by
              intro e2 h2
              rw [hfm, Option.some.injEq] at h2
              rw [← h2]
              intro hr2
              apply hsafe2
              have hmem := (findFirstMember_eq_some hfm).2
              have huser := (findFirstMember_eq_some hfm).1
              rw [← huser]
              exact eq_owner_of_role_owner hinv hmem hr2
            show ownerUsers (setRoleFirst room.members t r) = [room.owner]
            rw [setRoleFirst_ownerUsers_ne hro hfe]
            exact hinv

/-- The single-owner invariant is preserved along any invariant-safe
sequence of membership transitions. -/
theorem roomInv_foldl : ∀ (as : List Act) (room : Room),
    roomInv room → safeActs room as → roomInv (List.foldl applyAct room as)
  | [], _, h, _ => h
  | a :: as, room, h, hs => roomInv_foldl as (applyAct room a) (inv_step room a h hs.1) hs.2

/-- Claim C1 (amended): starting from room creation, the single-owner
invariant — exactly one members entry with role owner, whose user id equals
the owner field — holds after any sequence of join, approve, reject, kick
and role-change transitions in which no role change targets the current
owner identity. -/
theorem roomInv_create_then_acts (creator rid pass now : Nat) (as : List Act)
    (hsafe : safeActs (createRoomH creator rid pass now) as) :
    roomInv (List.foldl applyAct (createRoomH creator rid pass now) as) := by
  apply roomInv_foldl as _ _ hsafe
  show ownerUsers [{ user := creator, role := Role.owner, addedAt := now }] = [creator]
  simp [ownerUsers]

/-- Witness for claim C1: a concrete safe transition sequence — join,
approve, ownership transfer away from the creator, then kicking the old
owner — keeps the invariant. -/
theorem roomInv_create_then_acts_applied :
    safeActs (createRoomH 0 1 99 5)
        [Act.join 2 99 6, Act.approve 0 2, Act.changeRole 0 2 "owner", Act.kick 2 0] ∧
      roomInv (List.foldl applyAct (createRoomH 0 1 99 5)
        [Act.join 2 99 6, Act.approve 0 2, Act.changeRole 0 2 "owner", Act.kick 2 0]) :=
  ⟨by decide, roomInv_create_then_acts 0 1 99 5 _ (by decide)⟩

/-- Counterexample to claim C1 as stated: a role change issued by the owner
against the owner, requesting role editor, is a valid transition, yet it
leaves the room with zero owner-role entries. -/
theorem roomInv_roleChange_self_cex :
    roomInv (createRoomH 0 1 99 5) ∧
      ¬ roomInv (applyAct (createRoomH 0 1 99 5) (Act.changeRole 0 0 "editor")) := by
  decide

/-- Counterexample to claim C2 as stated: room creation already inserts the
creator membership entry with role owner; the members array is not empty
after creation. -/
theorem createRoom_members_cex :
    (createRoomH 0 1 99 5).members = [{ user := 0, role := Role.owner, addedAt := 5 }] ∧
      (createRoomH 0 1 99 5).members ≠ [] := by
  decide

/-- Claim C2 (amended): room creation inserts the creator owner entry
immediately; a subsequent join by the creator hits the already-member branch
and returns role owner without mutation; the isOwnerJoining branch of join
inserts an owner entry only when the creator holds no entry. -/
theorem createRoom_owner_entry (creator rid pass now now2 : Nat) :
    (createRoomH creator rid pass now).members =
        [{ user := creator, role := Role.owner, addedAt := now }] ∧
      joinRoomH (createRoomH creator rid pass now) creator pass now2 =
        (HOut.ok Role.owner, createRoomH creator rid pass now, []) ∧
      ∀ room : Room, findFirstMember room.members creator = none → room.owner = creator →
        joinRoomH room creator room.password now2 =
          (HOut.ok Role.owner,
           { room with members := room.members ++
               [{ user := creator, role := Role.owner, addedAt := now2 }] },
           [Event.toRoom room.roomId "members_updated"]) := by
  refine ⟨rfl, ?_, ?_⟩
  · unfold joinRoomH createRoomH
    simp [findFirstMember]
  · intro room hfm howner
    unfold joinRoomH
    rw [if_neg (fun h => h rfl), hfm]
    simp [howner]

/-- Witness for claim C2: the isOwnerJoining branch on a room whose creator
holds no entry. -/
theorem createRoom_owner_entry_applied :
    joinRoomH roomNoEntry 0 99 6 =
      (HOut.ok Role.owner,
       { roomNoEntry with members := [{ user := 0, role := Role.owner, addedAt := 6 }] },
       [Event.toRoom 1 "members_updated"]) := by
  have h := (createRoom_owner_entry 0 1 99 5 6).2.2 roomNoEntry rfl rfl
  simpa [roomNoEntry] using h

/-- The owner-swap branch of the role endpoint, computed for a target other
than the requesting owner. -/
theorem changeRoleH_owner_of_ne (room : Room) (M : Nat) (e : Member)
    (hM : M ≠ room.owner) (hfind : findFirstMember room.members M = some e) :
    changeRoleH room room.owner M "owner" =
      (HOut.ok Role.owner,
       { room with
           owner := e.user
           members := setRoleFirst (room.members.map (demoteFun room.owner)) M Role.owner },
       [Event.toRoom room.roomId "members_updated"]) := by
  unfold changeRoleH
  have hps : parseRole "owner" = some Role.owner := rfl
  rw [hps]
  simp only []
  rw [if_neg (fun h => h rfl), hfind]
  simp [hM]

/-- Claim C3 (amended): for every member M other than the current owner, the
owner-issued role change to owner returns ok, makes the entry of M the owner
entry, demotes the entry of the previous owner to member and reassigns the
owner field to M, all in the one returned room value. -/
theorem changeRole_owner_swap (room : Room) (M : Nat) (e : Member)
    (hinv : roomInv room) (hM : M ≠ room.owner)
    (hfind : findFirstMember room.members M = some e) :
    (changeRoleH room room.owner M "owner").1 = HOut.ok Role.owner ∧
      (changeRoleH room room.owner M "owner").2.1.owner = M ∧
      (findFirstMember (changeRoleH room room.owner M "owner").2.1.members M).map Member.role
        = some Role.owner ∧
      (findFirstMember (changeRoleH room room.owner M "owner").2.1.members room.owner).map
          Member.role = some Role.member ∧
      (changeRoleH room room.owner M "owner").2.2 =
        [Event.toRoom room.roomId "members_updated"] := by
  rw [changeRoleH_owner_of_ne room M e hM hfind]
  have heu : e.user = M := (findFirstMember_eq_some hfind).1
  refine ⟨rfl, heu, ?_, ?_, rfl⟩
  · show (findFirstMember
        (setRoleFirst (room.members.map (demoteFun room.owner)) M Role.owner) M).map Member.role
      = some Role.owner
    rw [findFirstMember_setRoleFirst_self, findFirstMember_map (demoteFun_user room.owner), hfind]
    rfl
  · show (findFirstMember
        (setRoleFirst (room.members.map (demoteFun room.owner)) M Role.owner) room.owner).map
        Member.role = some Role.member
    rw [findFirstMember_setRoleFirst_ne (fun h => hM h.symm)]
    rw [findFirstMember_map (demoteFun_user room.owner)]
    rcases ownerUsers_singleton_exists hinv with ⟨e0, he0, hu0, hr0⟩
    rcases findFirstMember_isSome_of_mem ⟨e0, he0, hu0⟩ with ⟨e1, he1⟩
    rw [he1]
    have hu1 : e1.user = room.owner := (findFirstMember_eq_some he1).1
    show some ((demoteFun room.owner e1).role) = some Role.member
    unfold demoteFun
    rw [if_pos hu1]

/-- Witness for claim C3: transferring ownership from user 0 to member 2. -/
theorem changeRole_owner_swap_applied :
    (changeRoleH roomMem 0 2 "owner").2.1.owner = 2 ∧
    (findFirstMember (changeRoleH roomMem 0 2 "owner").2.1.members 0).map Member.role
      = some Role.member := by
  have h := changeRole_owner_swap roomMem 2 { user := 2, role := Role.member, addedAt := 6 }
      (by decide) (by decide) rfl
  exact ⟨h.2.1, h.2.2.2.1⟩

/-- Counterexample to claim C3 as stated: the owner targets their own entry
with a role change to owner; the endpoint answers ok with role owner, yet
the stored entry of that user ends up with role member, because the
demotion map replaced the array object the promotion was written to. -/
theorem changeRole_owner_self_cex :
    (changeRoleH (createRoomH 0 1 99 5) 0 0 "owner").1 = HOut.ok Role.owner ∧
      (findFirstMember (changeRoleH (createRoomH 0 1 99 5) 0 0 "owner").2.1.members 0).map
          Member.role = some Role.member ∧
      (changeRoleH (createRoomH 0 1 99 5) 0 0 "owner").2.1.owner = 0 := by
  decide

/-- Claim C4: an owner-initiated approve of a pending entry turns the role
into member and emits exactly the approved event to the target user followed
by the generic members_updated room broadcast; approving a non-pending entry
fails with status 400 and the message that the member is not pending, and
leaves the room unchanged with no events. -/
theorem approve_pending_spec (room : Room) (U : Nat) (e : Member)
    (hfind : findFirstMember room.members U = some e) :
    (e.role = Role.pending →
      approveH room room.owner U =
        (HOut.ok (), { room with members := setRoleFirst room.members U Role.member },
         [Event.toUser U "approved", Event.toRoom room.roomId "members_updated"]) ∧
      (findFirstMember (setRoleFirst room.members U Role.member) U).map Member.role
        = some Role.member) ∧
    (e.role ≠ Role.pending →
      approveH room room.owner U = (HOut.err 400 "member is not pending", room, [])) := by
  constructor
  · intro hp
    constructor
    · unfold approveH
      rw [if_neg (fun h => h rfl), hfind]
      simp [hp]
    · rw [findFirstMember_setRoleFirst_self, hfind]
      rfl
  · intro hp
    unfold approveH
    rw [if_neg (fun h => h rfl), hfind]
    simp [hp]

/-- Witness for claim C4: approving the pending user 2. -/
theorem approve_pending_spec_applied :
    approveH roomPend 0 2 =
      (HOut.ok (),
       { roomPend with members := [{ user := 0, role := Role.owner, addedAt := 5 },
                                   { user := 2, role := Role.member, addedAt := 6 }] },
       [Event.toUser 2 "approved", Event.toRoom 1 "members_updated"]) := by
  have h := (approve_pending_spec roomPend 2 { user := 2, role := Role.pending, addedAt := 6 }
      rfl).1 rfl
  exact h.1.trans (by decide)

/-- Claim C5 (amended): an owner-initiated kick removes the target entry
exactly when its role is not owner — member, editor, viewer and also
pending — emitting the kicked event to the target and the members_updated
broadcast; a kick whose target entry has role owner fails with status 400
and mutates nothing. -/
theorem kick_spec (room : Room) (t : Nat) (e : Member)
    (hfind : findFirstMember room.members t = some e) :
    (e.role ≠ Role.owner →
      kickH room room.owner t =
        (HOut.ok (), { room with members := removeMemberFirst room.members t },
         [Event.toUser t "kicked", Event.toRoom room.roomId "members_updated"])) ∧
    (e.role = Role.owner →
      kickH room room.owner t = (HOut.err 400 "cannot kick owner", room, [])) := by
  constructor
  · intro hro
    unfold kickH
    rw [if_neg (fun h => h rfl), hfind]
    simp [hro]
  · intro hro
    unfold kickH
    rw [if_neg (fun h => h rfl), hfind]
    simp [hro]

/-- Witness for claim C5: kicking the editor 3 removes the entry. -/
theorem kick_spec_applied :
    kickH roomEd 0 3 =
      (HOut.ok (),
       { roomEd with members := [{ user := 0, role := Role.owner, addedAt := 5 }] },
       [Event.toUser 3 "kicked", Event.toRoom 1 "members_updated"]) := by
  have h := (kick_spec roomEd 3 { user := 3, role := Role.editor, addedAt := 6 } rfl).1
      (by decide)
  exact h.trans (by decide)

/-- Counterexample to claim C5 as stated: kicking a target whose entry is
pending — not one of member, editor, viewer — succeeds and removes the
entry instead of failing with status 400. -/
theorem kick_pending_cex :
    kickH roomPend 0 2 =
      (HOut.ok (),
       { roomPend with members := [{ user := 0, role := Role.owner, addedAt := 5 }] },
       [Event.toUser 2 "kicked", Event.toRoom 1 "members_updated"]) := by
  decide

/-- Claim C6: a join carrying a wrong room credential fails with status 401
and the invalid-room-password message, leaves the room aggregate unchanged
and emits nothing. -/
theorem join_wrong_password (room : Room) (u pass now : Nat) (h : pass ≠ room.password) :
    joinRoomH room u pass now = (HOut.err 401 "invalid room password", room, []) := by
  unfold joinRoomH
  rw [if_pos h]

/-- Witness for claim C6: joining with credential 98 against password 99. -/
theorem join_wrong_password_applied :
    (98 ≠ (createRoomH 0 1 99 5).password) ∧
      joinRoomH (createRoomH 0 1 99 5) 2 98 6 =
        (HOut.err 401 "invalid room password", createRoomH 0 1 99 5, []) :=
  ⟨by decide, join_wrong_password (createRoomH 0 1 99 5) 2 98 6 (by decide)⟩

/-- Claim C7: a join by a user who already holds any entry — pending
included — returns ok with the stored role, mutates nothing and emits
nothing. -/
theorem join_existing_member (room : Room) (u now : Nat) (e : Member)
    (hfind : findFirstMember room.members u = some e) :
    joinRoomH room u room.password now = (HOut.ok e.role, room, []) := by
  unfold joinRoomH
  rw [if_neg (fun h => h rfl), hfind]

/-- Witness for claim C7: a pending user re-joins and stays pending. -/
theorem join_existing_member_applied :
    joinRoomH roomPend 2 99 7 = (HOut.ok Role.pending, roomPend, []) :=
  join_existing_member roomPend 2 7 { user := 2, role := Role.pending, addedAt := 6 } rfl

/-- A delete by an owner or editor always answers ok, removes the first
matching file if any, and emits the files_updated broadcast. -/
theorem deleteFileH_allowed (room : Room) (req fid : Nat) (e : Member)
    (hm : findFirstMember room.members req = some e)
    (hrole : e.role = Role.owner ∨ e.role = Role.editor) :
    deleteFileH room req fid =
      (HOut.ok (), { room with files := removeFileFirst room.files fid },
       [Event.toRoom room.roomId "files_updated"]) := by
  have hcond : ¬(e.role ≠ Role.owner ∧ e.role ≠ Role.editor) := by
    rcases hrole with h | h
    · exact fun hc => hc.1 h
    · exact fun hc => hc.2 h
  unfold deleteFileH
  rw [hm]
  cases hff : findFirstFile room.files fid with
  | none =>
    rw [removeFileFirst_of_none hff]
    simp [hcond, hff]
  | some f2 =>
    simp [hcond]

/-- A delete by an owner or editor of an absent fileId answers ok, mutates
nothing, and still emits the files_updated broadcast. -/
theorem deleteFileH_absent (room : Room) (req fid : Nat) (e : Member)
    (hm : findFirstMember room.members req = some e)
    (hrole : e.role = Role.owner ∨ e.role = Role.editor)
    (hff : findFirstFile room.files fid = none) :
    deleteFileH room req fid =
      (HOut.ok (), room, [Event.toRoom room.roomId "files_updated"]) := by
  rw [deleteFileH_allowed room req fid e hm hrole, removeFileFirst_of_none hff]

/-- Claim C8: file deletion by an owner or editor succeeds even when the
fileId is absent — in particular on the second of two deletes of one
fileId — performing no storage mutation while still emitting the
files_updated broadcast; a requester who is no member, or whose role is
neither owner nor editor, is refused with status 403 and nothing changes. -/
theorem deleteFile_spec (room : Room) (req fid : Nat) :
    (∀ e, findFirstMember room.members req = some e →
      (e.role = Role.owner ∨ e.role = Role.editor) →
      findFirstFile room.files fid = none →
      deleteFileH room req fid = (HOut.ok (), room, [Event.toRoom room.roomId "files_updated"])) ∧
    (∀ e, findFirstMember room.members req = some e →
      ¬(e.role = Role.owner ∨ e.role = Role.editor) →
      deleteFileH room req fid = (HOut.err 403 "not allowed", room, [])) ∧
    (findFirstMember room.members req = none →
      deleteFileH room req fid = (HOut.err 403 "not allowed", room, [])) ∧
    (∀ e, findFirstMember room.members req = some e →
      (e.role = Role.owner ∨ e.role = Role.editor) →
      (room.files.map RoomFile.fileId).Nodup →
      deleteFileH (deleteFileH room req fid).2.1 req fid =
        (HOut.ok (), (deleteFileH room req fid).2.1,
         [Event.toRoom room.roomId "files_updated"])) := by
  refine ⟨?_, ?_, ?_, ?_⟩
  · intro e hm hrole hff
    exact deleteFileH_absent room req fid e hm hrole hff
  · intro e hm hrole
    push_neg at hrole
    unfold deleteFileH
    rw [hm]
    simp [hrole.1, hrole.2]
  · intro hm
    unfold deleteFileH
    rw [hm]
  · intro e hm hrole hnd
    rw [deleteFileH_allowed room req fid e hm hrole]
    show deleteFileH { room with files := removeFileFirst room.files fid } req fid =
      (HOut.ok (), { room with files := removeFileFirst room.files fid },
       [Event.toRoom room.roomId "files_updated"])
    exact deleteFileH_absent { room with files := removeFileFirst room.files fid } req fid e hm
      hrole (removeFileFirst_find_none hnd)

/-- Witness for claim C8: the owner deletes an absent file 7; the call
answers ok without mutation and still broadcasts files_updated. -/
theorem deleteFile_spec_applied :
    deleteFileH roomSolo 0 7 = (HOut.ok (), roomSolo, [Event.toRoom 1 "files_updated"]) :=
  (deleteFile_spec roomSolo 0 7).1 { user := 0, role := Role.owner, addedAt := 5 } rfl
    (Or.inl rfl) rfl

/-- Claim C9: during a reconciliation pull over server files with distinct
ids, every server file record ends up in the mirror under its id with the
server name; its allowed set is the one already in the mirror when the
server allowed set is empty or the record was absent, and the server
allowed set whenever the server supplies a non-empty one. -/
theorem mergeServerFiles_allowed (cur : List (Nat × MirrorFile))
    (serverFiles : List ServerFile) (f : ServerFile)
    (hf : f ∈ serverFiles)
    (hnd : (serverFiles.map ServerFile.fileId).Nodup) :
    ∃ v, mirrorGet (mergeServerFilesIntoY cur serverFiles) f.fileId = some v ∧
      v.name = f.name ∧
      v.allowed = (if f.allowed = [] then mirrorAllowed cur f.fileId else f.allowed) := by
  induction serverFiles generalizing cur with
  | nil => simp at hf
  | cons g gs ih =>
    rw [List.map_cons, List.nodup_cons] at hnd
    unfold mergeServerFilesIntoY
    rw [List.foldl_cons]
    rcases List.mem_cons.mp hf with heq | hgs
    · subst heq
      have hne : ∀ x ∈ gs, x.fileId ≠ f.fileId := by
        intro x hx hxf
        apply hnd.1
        rw [← hxf]
        exact List.mem_map_of_mem _ hx
      rcases mergeOneFile_get_self cur f with ⟨v, hv, hn, ha⟩
      refine ⟨v, ?_, hn, ha⟩
      rw [mergeFold_get_ne (mergeOneFile cur f) hne]
      exact hv
    · have hgf : g.fileId ≠ f.fileId := by
        intro hx
        apply hnd.1
        rw [hx]
        exact List.mem_map_of_mem _ hgs
      rcases ih (mergeOneFile cur g) hgs hnd.2 with ⟨v, hv, hn, ha⟩
      refine ⟨v, hv, hn, ?_⟩
      rw [ha]
      have h2 : mirrorAllowed (mergeOneFile cur g) f.fileId = mirrorAllowed cur f.fileId := by
        unfold mirrorAllowed
        rw [mergeOneFile_get_ne cur hgf]
      rw [h2]

/-- Witness for claim C9: the server sends file 3 with an empty allowed set
and a new name; the merge keeps the mirror allowed set. -/
theorem mergeServerFiles_allowed_applied :
    ∃ v, mirrorGet (mergeServerFilesIntoY [(3, ⟨"a", 1, [7]⟩)] [⟨3, "b", 2, []⟩]) 3 = some v ∧
      v.name = "b" ∧ v.allowed = [7] := by
  have h := mergeServerFiles_allowed [(3, ⟨"a", 1, [7]⟩)] [⟨3, "b", 2, []⟩] ⟨3, "b", 2, []⟩
      (by decide) (by decide)
  rcases h with ⟨v, hv, hn, ha⟩
  exact ⟨v, hv, hn, ha.trans (by decide)⟩

/-- Claim C10: the role endpoint rejects any requested role outside owner,
editor, member, viewer — the string pending included — with status 400 and
no mutation, so no entry can be set to pending through it; a target whose
entry is pending is accepted, so the owner may assign it any of the four
roles directly, bypassing approve. -/
theorem changeRole_validation (room : Room) (req t : Nat) (s : String) :
    (parseRole s = none →
      changeRoleH room req t s = (HOut.err 400 "invalid role", room, [])) ∧
    parseRole "pending" = none ∧
    (∀ r e, parseRole s = some r → r ≠ Role.owner →
      findFirstMember room.members t = some e → e.role = Role.pending →
      changeRoleH room room.owner t s =
        (HOut.ok r, { room with members := setRoleFirst room.members t r },
         [Event.toRoom room.roomId "members_updated"])) ∧
    (∀ e, findFirstMember room.members t = some e → e.role = Role.pending →
      t ≠ room.owner →
      (changeRoleH room room.owner t "owner").1 = HOut.ok Role.owner ∧
      (findFirstMember (changeRoleH room room.owner t "owner").2.1.members t).map Member.role
        = some Role.owner) := by
  refine ⟨?_, rfl, ?_, ?_⟩
  · intro hps
    unfold changeRoleH
    rw [hps]
  · intro r e hps hro hfm _hpend
    unfold changeRoleH
    rw [hps]
    simp only []
    rw [if_neg (fun h => h rfl), hfm]
    simp [hro]
  · intro e hfm _hpend ht
    rw [changeRoleH_owner_of_ne room t e ht hfm]
    refine ⟨rfl, ?_⟩
    show (findFirstMember
        (setRoleFirst (room.members.map (demoteFun room.owner)) t Role.owner) t).map Member.role
      = some Role.owner
    rw [findFirstMember_setRoleFirst_self, findFirstMember_map (demoteFun_user room.owner), hfm]
    rfl

/-- Witness for claim C10: requesting the role string pending is rejected
with status 400 and no mutation. -/
theorem changeRole_validation_applied :
    changeRoleH (createRoomH 0 1 99 5) 0 2 "pending" =
      (HOut.err 400 "invalid role", createRoomH 0 1 99 5, []) :=
  (changeRole_validation (createRoomH 0 1 99 5) 0 2 "pending").1 rfl

end LiveCode
